import Mathlib

/-!
Verification development for the SQL-to-MongoDB migration tool
(src/DB_MIGRATION_TOOL.py).  The correctness-critical units are embedded
shallowly: Python run-time values become the inductive type `PyVal`,
BSON-side values become `BVal`, the value converter `convert_value`
(source lines 210-259) becomes a Lean function returning
`Except String (Option BVal)` (an `Except.error` models a Python
exception escaping the function, `Option` models a possibly-`None`
result), and the batch executor's document building, validation, commit
and paging logic are embedded as explicit list-processing functions.

External library collaborators (pandas' `isna`/`to_datetime`, `json.loads`,
`bson`'s `Decimal128`/`ObjectId`/`encode`) are modelled by executable Lean
functions that reproduce the behaviour relevant to the checked claims;
commentary at each definition records where the model is coarser than the
library (non-finite floats, exotic date formats, unicode escapes).
-/

namespace DBMigration

/-- Model of a Python run-time value as it can arrive from a
`pandas.read_sql` row (or appear nested inside a JSON-decoded value).
Finite floats are modelled as exact rationals; the distinguished `vNaN`
stands for `float("nan")`, the missing-value marker pandas uses. -/
inductive PyVal where
  | vNone
  | vNaN
  | vBool (b : Bool)
  | vInt (n : Int)
  | vFloat (q : Rat)
  | vStr (s : String)
  | vDatetime (n : Int)
  | vList (xs : List PyVal)
  | vDict (kvs : List (String × PyVal))

/-- Model of a value produced by `convert_value` for storage in MongoDB:
the value-level representations of the target type enum.  `bArray` and
`bDoc` hold raw Python values because the source's `array`/`dict`
branches pass the original (or JSON-decoded) Python objects through
unchanged. -/
inductive BVal where
  | bBool (b : Bool)
  | bInt (n : Int)
  | bFloat (q : Rat)
  | bDecimal (s : String)
  | bDatetime (n : Int)
  | bStr (s : String)
  | bArray (xs : List PyVal)
  | bDoc (kvs : List (String × PyVal))
  | bObjectId (s : String)

/-- Lower-case an ASCII letter (model of `str.lower` on the characters
that occur in SQL type names). -/
def lowerChar (c : Char) : Char :=
  if 'A' ≤ c ∧ c ≤ 'Z' then Char.ofNat (c.toNat + 32) else c

/-- Model of Python `str.lower()` (ASCII). -/
def lowerStr (s : String) : String := ⟨s.data.map lowerChar⟩

def isWsChar (c : Char) : Bool :=
  c == ' ' || c == Char.ofNat 9 || c == Char.ofNat 10 || c == Char.ofNat 13

/-- Strip leading and trailing whitespace (model of Python `str.strip()`
as applied implicitly by `int(...)`, `float(...)` and `Decimal(...)`). -/
def wsTrim (cs : List Char) : List Char :=
  ((cs.dropWhile isWsChar).reverse.dropWhile isWsChar).reverse

def digitsToNat (cs : List Char) : Nat :=
  cs.foldl (fun a c => a * 10 + (c.toNat - 48)) 0

/-- Parse a non-empty all-digit character run. -/
def allDigits (cs : List Char) : Bool := !cs.isEmpty && cs.all Char.isDigit

/-- Model of Python `int(s)` on strings: optional surrounding whitespace,
optional sign, a non-empty digit run.  (Numeric-literal underscores are
not modelled.)  Returns `none` when Python would raise `ValueError`. -/
def parsePyInt (s : String) : Option Int :=
  match wsTrim s.data with
  | '+' :: rest => if allDigits rest then some (digitsToNat rest) else none
  | '-' :: rest => if allDigits rest then some (-(digitsToNat rest : Int)) else none
  | rest => if allDigits rest then some (digitsToNat rest) else none

/-- Split a character list into leading digits and the remainder. -/
def spanDigits (cs : List Char) : List Char × List Char :=
  (cs.takeWhile Char.isDigit, cs.dropWhile Char.isDigit)

/-- Parse the body of a decimal numeric string `digits [. digits]
[(e|E) [sign] digits]`, at least one digit before the point, returning
its exact rational value.  Shared grammar model for Python
`float(str)` and `bson.Decimal128(str)` (whose accepted syntax agrees on
everything the migration tool can feed them; the special tokens
`inf`/`nan` are not modelled). -/
def parseDecimalBody (cs : List Char) : Option Rat :=
  match spanDigits cs with
  | ([], _) => none
  | (ip, rest) =>
    let ipv : Rat := (digitsToNat ip : Nat)
    let afterFrac : Option (Rat × List Char) :=
      match rest with
      | '.' :: rest2 =>
        match spanDigits rest2 with
        | ([], _) => none
        | (fp, rest3) =>
          some (ipv + (digitsToNat fp : Rat) / ((10 : Rat) ^ fp.length), rest3)
      | _ => some (ipv, rest)
    match afterFrac with
    | none => none
    | some (mant, rest4) =>
      match rest4 with
      | [] => some mant
      | e :: rest5 =>
        if e == 'e' || e == 'E' then
          match rest5 with
          | '+' :: rest6 =>
            if allDigits rest6 then some (mant * (10 : Rat) ^ (digitsToNat rest6)) else none
          | '-' :: rest6 =>
            if allDigits rest6 then some (mant / (10 : Rat) ^ (digitsToNat rest6)) else none
          | rest6 =>
            if allDigits rest6 then some (mant * (10 : Rat) ^ (digitsToNat rest6)) else none
        else none

/-- Signed decimal string parser (common to the `float`/`Decimal128`
model). -/
def parseDecimalStr (s : String) : Option Rat :=
  match wsTrim s.data with
  | '+' :: rest => parseDecimalBody rest
  | '-' :: rest => (parseDecimalBody rest).map Neg.neg
  | rest => parseDecimalBody rest

/-- Does `bson.Decimal128(s)` accept the string?  Modelled as acceptance
by the decimal numeric-string grammar above. -/
def isDecimalStr (s : String) : Bool := (parseDecimalStr s).isSome

/-- Model of Python `float(v)` restricted to finite results. -/
def pyFloat : PyVal → Option Rat
  | .vBool b => some (if b then 1 else 0)
  | .vInt n => some (n : Rat)
  | .vFloat q => some q
  | .vStr s => parseDecimalStr s
  | _ => none

/-- Decimal rendering of a rational whose denominator divides a power of
ten up to 10^30 (every float the tool can see is such a rational); other
rationals fall back to a fraction rendering.  Model of Python
`str(float)`. -/
def ratDecimalRepr (q : Rat) : String :=
  if q.den = 1 then toString q.num
  else if (q.num * 10 ^ 30) % (q.den : Int) = 0 then
    let scaled : Int := (q.num * 10 ^ 30) / (q.den : Int)
    let sign := if scaled < 0 then "-" else ""
    let a := scaled.natAbs
    let ip := a / 10 ^ 30
    let fpDigits := (Nat.toDigits 10 (a % 10 ^ 30 + 10 ^ 30)).drop 1
    let fpTrimmed := (fpDigits.reverse.dropWhile (fun c => c == '0')).reverse
    sign ++ toString ip ++ "." ++ ⟨fpTrimmed⟩
  else toString q.num ++ "/" ++ toString q.den

def quoteCh : Char := Char.ofNat 39

mutual

/-- Model of Python `str(v)` (and, inside containers, `repr(v)`;
strings gain quotes inside containers, mirroring Python's container
repr). -/
def pyStr : PyVal → String
  | .vNone => "None"
  | .vNaN => "nan"
  | .vBool b => if b then "True" else "False"
  | .vInt n => toString n
  | .vFloat q => ratDecimalRepr q
  | .vStr s => s
  | .vDatetime n => "datetime[" ++ toString n ++ "]"
  | .vList xs => "[" ++ pyReprList xs ++ "]"
  | .vDict kvs =>
    String.singleton (Char.ofNat 123) ++ pyReprPairs kvs ++ String.singleton (Char.ofNat 125)

def pyReprList : List PyVal → String
  | [] => ""
  | [PyVal.vStr s] => String.singleton quoteCh ++ s ++ String.singleton quoteCh
  | [x] => pyStr x
  | PyVal.vStr s :: xs =>
    String.singleton quoteCh ++ s ++ String.singleton quoteCh ++ ", " ++ pyReprList xs
  | x :: xs => pyStr x ++ ", " ++ pyReprList xs

def pyReprPairs : List (String × PyVal) → String
  | [] => ""
  | [(k, PyVal.vStr s)] =>
    String.singleton quoteCh ++ k ++ String.singleton quoteCh ++ ": " ++
      String.singleton quoteCh ++ s ++ String.singleton quoteCh
  | [(k, v)] => String.singleton quoteCh ++ k ++ String.singleton quoteCh ++ ": " ++ pyStr v
  | (k, PyVal.vStr s) :: kvs =>
    String.singleton quoteCh ++ k ++ String.singleton quoteCh ++ ": " ++
      String.singleton quoteCh ++ s ++ String.singleton quoteCh ++ ", " ++ pyReprPairs kvs
  | (k, v) :: kvs =>
    String.singleton quoteCh ++ k ++ String.singleton quoteCh ++ ": " ++ pyStr v ++ ", " ++
      pyReprPairs kvs

end

/-- Model of Python `int(v)`: `none` where Python raises (`TypeError`
for dates/containers, `ValueError` for non-numeric strings).  Floats
truncate toward zero; `bool` is an `int` subclass in Python. -/
def pyInt : PyVal → Option Int
  | .vBool b => some (if b then 1 else 0)
  | .vInt n => some n
  | .vFloat q => some (if q < 0 then -(((-q).floor)) else q.floor)
  | .vStr s => parsePyInt s
  | _ => none

def isLeapYear (y : Nat) : Bool :=
  (y % 4 == 0 && y % 100 != 0) || y % 400 == 0

def daysInMonth (y m : Nat) : Nat :=
  if m == 2 then (if isLeapYear y then 29 else 28)
  else if ([4, 6, 9, 11] : List Nat).contains m then 30
  else 31

/-- Injective encoding of a calendar timestamp into the abstract
`Int`-valued timestamp carried by `PyVal.vDatetime`. -/
def dtEncode (y m d h mi s : Nat) : Int :=
  ((((((y : Int) * 13 + m) * 32 + d) * 24 + h) * 60 + mi) * 60 + s)

/-- Model of the pandas general date-time parser on ISO strings
`YYYY-MM-DD` and `YYYY-MM-DD HH:MM:SS` (other formats pandas accepts
are not modelled and map to `none`). -/
def parseDateStr (s : String) : Option Int :=
  match s.data with
  | [y1, y2, y3, y4, '-', m1, m2, '-', d1, d2] =>
    if allDigits [y1, y2, y3, y4] && allDigits [m1, m2] && allDigits [d1, d2] then
      let y := digitsToNat [y1, y2, y3, y4]
      let m := digitsToNat [m1, m2]
      let d := digitsToNat [d1, d2]
      if 1 ≤ m && m ≤ 12 && 1 ≤ d && d ≤ daysInMonth y m then
        some (dtEncode y m d 0 0 0)
      else none
    else none
  | [y1, y2, y3, y4, '-', m1, m2, '-', d1, d2, ' ', h1, h2, ':', i1, i2, ':', s1, s2] =>
    if allDigits [y1, y2, y3, y4] && allDigits [m1, m2] && allDigits [d1, d2] &&
        allDigits [h1, h2] && allDigits [i1, i2] && allDigits [s1, s2] then
      let y := digitsToNat [y1, y2, y3, y4]
      let m := digitsToNat [m1, m2]
      let d := digitsToNat [d1, d2]
      let h := digitsToNat [h1, h2]
      let i := digitsToNat [i1, i2]
      let sec := digitsToNat [s1, s2]
      if 1 ≤ m && m ≤ 12 && 1 ≤ d && d ≤ daysInMonth y m && h ≤ 23 && i ≤ 59 && sec ≤ 59 then
        some (dtEncode y m d h i sec)
      else none
    else none
  | _ => none

/-- Model of `pd.to_datetime(v).to_pydatetime()` on scalar inputs:
timestamps pass through, integers/floats are epoch offsets, strings go
through the date parser; booleans and containers raise (`none`). -/
def pyToDatetime : PyVal → Option Int
  | .vDatetime n => some n
  | .vInt n => some n
  | .vFloat q => some q.floor
  | .vStr s => parseDateStr s
  | _ => none

def dquoteCh : Char := Char.ofNat 34

def bslashCh : Char := Char.ofNat 92

def obraceCh : Char := Char.ofNat 123

def cbraceCh : Char := Char.ofNat 125

def jsonWs (cs : List Char) : List Char := cs.dropWhile isWsChar

/-- Does `pre` occur at the start of `cs`? -/
def beginsWith : List Char → List Char → Bool
  | _, [] => true
  | [], _ :: _ => false
  | h :: hs, n :: ns => h == n && beginsWith hs ns

/-- Translate a JSON escape character (`\u` hex escapes are not
modelled; unknown escapes pass the character through). -/
def jsonEsc (c : Char) : Char :=
  if c == 'n' then Char.ofNat 10
  else if c == 't' then Char.ofNat 9
  else if c == 'r' then Char.ofNat 13
  else if c == 'b' then Char.ofNat 8
  else if c == 'f' then Char.ofNat 12
  else c

/-- Parse a JSON string body after the opening quote, returning the
decoded characters and the remainder after the closing quote. -/
def jsonStrAux : List Char → Option (List Char × List Char)
  | [] => none
  | c :: rest =>
    if c == dquoteCh then some ([], rest)
    else if c == bslashCh then
      match rest with
      | [] => none
      | e :: rest2 =>
        match jsonStrAux rest2 with
        | none => none
        | some (out, rem) => some (jsonEsc e :: out, rem)
    else
      match jsonStrAux rest with
      | none => none
      | some (out, rem) => some (c :: out, rem)

/-- Parse a JSON number (grammar shared with the decimal parser; a
leading `-` is allowed, fractional or exponent parts yield a float). -/
def jsonNum (cs : List Char) : Option (PyVal × List Char) :=
  let core : List Char → Option (PyVal × List Char) := fun body =>
    match spanDigits body with
    | ([], _) => none
    | (ip, rest) =>
      match rest with
      | '.' :: rest2 =>
        match spanDigits rest2 with
        | ([], _) => none
        | (fp, rest3) =>
          some (.vFloat ((digitsToNat ip : Rat) +
            (digitsToNat fp : Rat) / ((10 : Rat) ^ fp.length)), rest3)
      | _ => some (.vInt (digitsToNat ip), rest)
  match cs with
  | '-' :: body =>
    (core body).map (fun p =>
      match p.1 with
      | .vInt n => (.vInt (-n), p.2)
      | .vFloat q => (.vFloat (-q), p.2)
      | v => (v, p.2))
  | body => core body

mutual

/-- Recursive-descent JSON value parser (model of `json.loads`), with a
structural fuel argument; exponents in numbers are not modelled. -/
def jsonVal (fuel : Nat) (cs : List Char) : Option (PyVal × List Char) :=
  match fuel with
  | 0 => none
  | fuel + 1 =>
    match jsonWs cs with
    | [] => none
    | c :: rest =>
      if c == dquoteCh then (jsonStrAux rest).map (fun p => (PyVal.vStr ⟨p.1⟩, p.2))
      else if c == '[' then (jsonArrItems fuel rest true).map (fun p => (PyVal.vList p.1, p.2))
      else if c == obraceCh then (jsonObjItems fuel rest true).map (fun p => (PyVal.vDict p.1, p.2))
      else if beginsWith (c :: rest) "null".data then some (PyVal.vNone, (c :: rest).drop 4)
      else if beginsWith (c :: rest) "true".data then some (PyVal.vBool true, (c :: rest).drop 4)
      else if beginsWith (c :: rest) "false".data then some (PyVal.vBool false, (c :: rest).drop 5)
      else jsonNum (c :: rest)

def jsonArrItems (fuel : Nat) (cs : List Char) (first : Bool) : Option (List PyVal × List Char) :=
  match fuel with
  | 0 => none
  | fuel + 1 =>
    match jsonWs cs with
    | [] => none
    | c :: rest =>
      if c == ']' && first then some ([], rest)
      else
        match jsonVal fuel (c :: rest) with
        | none => none
        | some (v, rem) =>
          match jsonWs rem with
          | [] => none
          | c2 :: rem2 =>
            if c2 == ']' then some ([v], rem2)
            else if c2 == ',' then (jsonArrItems fuel rem2 false).map (fun p => (v :: p.1, p.2))
            else none

def jsonObjItems (fuel : Nat) (cs : List Char) (first : Bool) :
    Option (List (String × PyVal) × List Char) :=
  match fuel with
  | 0 => none
  | fuel + 1 =>
    match jsonWs cs with
    | [] => none
    | c :: rest =>
      if c == cbraceCh && first then some ([], rest)
      else if c == dquoteCh then
        match jsonStrAux rest with
        | none => none
        | some (key, rem) =>
          match jsonWs rem with
          | ':' :: rem2 =>
            match jsonVal fuel rem2 with
            | none => none
            | some (v, rem3) =>
              match jsonWs rem3 with
              | [] => none
              | c2 :: rem4 =>
                if c2 == cbraceCh then some ([(⟨key⟩, v)], rem4)
                else if c2 == ',' then
                  (jsonObjItems fuel rem4 false).map (fun p => ((⟨key⟩, v) :: p.1, p.2))
                else none
          | _ => none
      else none

end

/-- Model of `json.loads` on strings: parse one value and require only
whitespace to remain; `none` models a raised `JSONDecodeError`. -/
def jsonLoads (s : String) : Option PyVal :=
  match jsonVal (2 * s.data.length + 2) s.data with
  | none => none
  | some (v, rest) => if (jsonWs rest).isEmpty then some v else none

/-- Is the value scalar for numpy purposes (not a sequence)? -/
def scalarPy : PyVal → Bool
  | .vList _ => false
  | _ => true

/-- `pd.isna` on a scalar. -/
def pyIsnaScalar : PyVal → Bool
  | .vNone => true
  | .vNaN => true
  | _ => false

def ambiguousTruthMsg : String :=
  "ValueError: The truth value of an array with more than one element is ambiguous"

/-- Model of the guard `pd.isna(v) or v is None` (source line 212).
For scalar inputs `pd.isna` returns a boolean.  For a list, pandas
returns an element-wise numpy boolean array, and taking the truth value
of an array of size other than one raises `ValueError`; a one-element
array of a scalar has a well-defined truth value.  Dictionaries are
treated as opaque non-missing objects. -/
def pyIsnaCheck : PyVal → Except String Bool
  | .vList [x] => if scalarPy x then .ok (pyIsnaScalar x) else .error ambiguousTruthMsg
  | .vList _ => .error ambiguousTruthMsg
  | .vDict _ => .ok false
  | v => .ok (pyIsnaScalar v)

/-- Is `s` a 24-character hexadecimal string (the string form accepted
by the `bson.ObjectId` constructor)? -/
def isHex24 (s : String) : Bool :=
  s.data.length == 24 &&
    s.data.all (fun c => c.isDigit || ('a' ≤ c && c ≤ 'f') || ('A' ≤ c && c ≤ 'F'))

/-- The body of `convert_value` after the null guard (source lines
214-259): one branch per target type tag, every fallible library call
modelled by its `Option`-valued model, the enclosing
`try/except Exception: return None` reflected in the `Option` results.
`fresh` is the identifier that `ObjectId()` would freshly generate on
this call — the only non-deterministic input. -/
def convertBody (fresh : String) (v : PyVal) (target_type : String) : Option BVal :=
  if target_type == "int" || target_type == "int32" || target_type == "int64" then
    (pyInt v).map .bInt
  else if target_type == "float" || target_type == "decimal" then
    if isDecimalStr (pyStr v) then some (.bDecimal (pyStr v))
    else (pyFloat v).map .bFloat
  else if target_type == "bool" then
    some (.bBool (match v with
      | .vBool b => b
      | .vInt n => decide (n ≠ 0)
      | .vFloat q => decide (q ≠ 0)
      | .vNaN => true
      | w => ([ "true", "1", "yes" ] : List String).contains (lowerStr (pyStr w))))
  else if target_type == "date" || target_type == "datetime" then
    match v with
    | .vDatetime n => some (.bDatetime n)
    | w => (pyToDatetime w).map .bDatetime
  else if target_type == "array" then
    match v with
    | .vList xs => some (.bArray xs)
    | .vStr s =>
      match jsonLoads s with
      | some (.vList xs) => some (.bArray xs)
      | _ => some (.bArray [v])
    | _ => some (.bArray [v])
  else if target_type == "dict" then
    match v with
    | .vDict kvs => some (.bDoc kvs)
    | .vStr s =>
      match jsonLoads s with
      | some (.vDict kvs) => some (.bDoc kvs)
      | _ => some (.bDoc [("value", v)])
    | _ => some (.bDoc [("value", v)])
  else if target_type == "objectid" then
    if isHex24 (pyStr v) then some (.bObjectId (pyStr v)) else some (.bObjectId fresh)
  else if target_type == "string" || target_type == "text" then
    some (.bStr (pyStr v))
  else none

/-- Shallow embedding of `convert_value(v, target_type)` (source lines
210-259).  An `Except.error` models a Python exception escaping the
function: the only site that can raise is the null guard
`if pd.isna(v) or v is None`, which sits before the `try` block. -/
def convert_value (fresh : String) (v : PyVal) (target_type : String) :
    Except String (Option BVal) :=
  match pyIsnaCheck v with
  | .error e => .error e
  | .ok true => .ok none
  | .ok false => .ok (convertBody fresh v target_type)

/-- The fixed native-type to target-type table (source lines 170-176),
keyed by the lower-cased catalog type name. -/
def default_type_map : List (String × String) :=
  [("int", "int32"), ("bigint", "int64"), ("smallint", "int32"), ("tinyint", "bool"),
   ("varchar", "string"), ("nvarchar", "string"), ("text", "string"),
   ("datetime", "datetime"), ("timestamp", "datetime"), ("date", "date"),
   ("decimal", "decimal"), ("float", "float"), ("real", "float"),
   ("json", "dict"), ("bit", "bool"), ("char", "string")]

/-- The closed list of selectable target type tags (source lines
178-181). -/
def mongo_type_options : List String :=
  ["string", "int32", "int64", "float", "decimal",
   "bool", "date", "datetime", "array", "dict", "objectid", "null"]

/-- The default target type computed for a native SQL type (source
lines 188 and 193-195): lower-case the catalog name, look it up in
`default_type_map` with default `"string"`, and fall back to
`"string"` if the result is not a selectable option. -/
def default_type_for (sql_type : String) : String :=
  let d := (default_type_map.lookup (lowerStr sql_type)).getD "string"
  if mongo_type_options.contains d then d else "string"

/-- A converted document: insertion-ordered string-keyed mapping whose
values are converter outputs (`none` is Python `None`). -/
abbrev Doc := List (String × Option BVal)

/-- Python `dict` update `d[k] = v`: overwrite in place if the key
exists (keeping its position), otherwise append. -/
def dictInsert (d : List (String × α)) (k : String) (v : α) : List (String × α) :=
  if d.any (fun p => p.1 == k) then
    d.map (fun p => if p.1 == k then (k, v) else p)
  else d ++ [(k, v)]

/-- `rename_map[col]` (source line 191): the operator's target name for
a column, defaulting to the column's own name (the text input is
prefilled with it). -/
def renameOf (rm : List (String × String)) (col : String) : String :=
  ((rm.find? (fun p => p.1 == col)).map Prod.snd).getD col

/-- `type_map.get(col, "string")` (source lines 263 and 298). -/
def typeOf (tm : List (String × String)) (col : String) : String :=
  ((tm.find? (fun p => p.1 == col)).map Prod.snd).getD "string"

/-- The document comprehension
`{rename_map[k]: convert_value(v, type_map.get(k, "string")) for k, v in row.items()}`
(source line 298), with Python's left-to-right dict-building made
explicit; an exception raised by `convert_value` propagates. -/
def buildDocAux (rm tm : List (String × String)) (fresh : String) :
    List (String × PyVal) → Doc → Except String Doc
  | [], acc => .ok acc
  | (k, v) :: rest, acc =>
    match convert_value fresh v (typeOf tm k) with
    | .error e => .error e
    | .ok bv => buildDocAux rm tm fresh rest (dictInsert acc (renameOf rm k) bv)

def buildRowDoc (rm tm : List (String × String)) (fresh : String)
    (row : List (String × PyVal)) : Except String Doc :=
  buildDocAux rm tm fresh row []

def hasKey (k : String) (d : List (String × α)) : Bool := d.any (fun p => p.1 == k)

def lookupVal (d : Doc) (k : String) : Option BVal :=
  ((d.find? (fun p => p.1 == k)).map Prod.snd).getD none

/-- The identifier overwrite (source lines 299-300):
`if id_field != "(auto)" and id_field in doc: doc["_id"] = doc[id_field]`.
Note the membership test runs against the document's (renamed) keys. -/
def addIdField (id_field : String) (d : Doc) : Doc :=
  if id_field != "(auto)" && hasKey id_field d then dictInsert d "_id" (lookupVal d id_field)
  else d

mutual

/-- Can this raw Python value be BSON-encoded (model of `bson.encode`
restricted to the failure mode the converter can actually produce:
integers beyond 8 bytes raise `OverflowError`)? -/
def bsonOkP : PyVal → Bool
  | .vInt n => decide (-(2 ^ 63) ≤ n) && decide (n < 2 ^ 63)
  | .vList xs => bsonOkList xs
  | .vDict kvs => bsonOkPairs kvs
  | _ => true

def bsonOkList : List PyVal → Bool
  | [] => true
  | x :: xs => bsonOkP x && bsonOkList xs

def bsonOkPairs : List (String × PyVal) → Bool
  | [] => true
  | (_, v) :: kvs => bsonOkP v && bsonOkPairs kvs

end

def bsonOkB : BVal → Bool
  | .bInt n => decide (-(2 ^ 63) ≤ n) && decide (n < 2 ^ 63)
  | .bArray xs => bsonOkList xs
  | .bDoc kvs => bsonOkPairs kvs
  | _ => true

/-- Does `bson.encode(d)` succeed on the document? -/
def bsonEncodable (d : Doc) : Bool :=
  d.all (fun p => match p.2 with
    | none => true
    | some b => bsonOkB b)

/-- The validation loop (source lines 303-310): try to BSON-encode each
document; keep the ones that encode.  The `except Exception:` handler
is `pass`, so the second component — the failures the run records — is
built exactly as the loop builds it: nothing is ever appended. -/
def validateDocs : List Doc → List Doc × List (Nat × String)
  | [] => ([], [])
  | d :: ds =>
    if bsonEncodable d then (d :: (validateDocs ds).1, (validateDocs ds).2)
    else ((validateDocs ds).1, (validateDocs ds).2)

/-- The MySQL page query text (source line 289).  Note: no ORDER BY
clause of any kind. -/
def mysql_page_query (table : String) : String :=
  "SELECT * FROM " ++ table ++ " LIMIT :bs OFFSET :o"

/-- The MS SQL Server page query text (source line 291).  Its
`ORDER BY (SELECT NULL)` satisfies the syntactic requirement of
`OFFSET/FETCH` but imposes no deterministic row order. -/
def mssql_page_query (table : String) : String :=
  "SELECT * FROM " ++ table ++ " ORDER BY (SELECT NULL) OFFSET :o ROWS FETCH NEXT :bs ROWS ONLY"

/-- Substring occurrence test on character lists. -/
def hasSub (hay needle : List Char) : Bool :=
  beginsWith hay needle ||
    match hay with
    | [] => false
    | _ :: t => hasSub t needle

/-- One page fetch against an engine that enumerates the table in the
fixed order `tbl`: rows `off, off+1, ...` up to `bs` of them. -/
def fetchPage (tbl : List α) (bs off : Nat) : List α := (tbl.drop off).take bs

/-- The paging loop of the migration (source lines 287-294 and 319),
under the assumption of a stable engine enumeration: fetch a page at
`off`; an empty fetch ends the loop, otherwise advance by
`batch_size`.  Returns the visited (non-empty) pages in order. -/
def pageWhile (tbl : List α) (bs off : Nat) : List (List α) :=
  if h : (fetchPage tbl bs off).isEmpty then []
  else fetchPage tbl bs off :: pageWhile tbl bs (off + bs)
termination_by tbl.length - off
decreasing_by
  simp only [fetchPage, List.isEmpty_iff, List.take_eq_nil_iff] at h
  push_neg at h
  have h2 : off < tbl.length := by
    by_contra hc
    exact h.2 (List.drop_eq_nil_of_le (by omega))
  have h3 : 0 < bs := by
    rcases Nat.eq_zero_or_pos bs with h0 | h0
    · exact absurd h0 h.1
    · exact h0
  omega

/-- The same loop against an engine that is free to enumerate the table
in a different order on every query — the situation the MySQL query
(no ORDER BY) and the MS SQL query (`ORDER BY (SELECT NULL)`) permit.
`orders i` is the enumeration the engine uses for the `i`-th issued
query; `fuel` bounds the number of iterations (the modelled runs end by
an empty fetch well before the fuel is spent). -/
def pageWhileUnordered (orders : Nat → List α) (bs : Nat) :
    Nat → Nat → Nat → List (List α)
  | 0, _, _ => []
  | fuel + 1, i, off =>
    if (fetchPage (orders i) bs off).isEmpty then []
    else fetchPage (orders i) bs off :: pageWhileUnordered orders bs fuel (i + 1) (off + bs)

/-- A generic document for the commit layer: an insertion-ordered
string-keyed mapping with values in an arbitrary type `V` carrying
decidable equality (instantiated with converter outputs; the commit
logic inspects values only through `_id` equality). -/
abbrev MDoc (V : Type) := List (String × V)

/-- The `_id` of a document as the filter `{"_id": d["_id"]}` sees it:
`none` when the key is absent. -/
def idOf (d : MDoc V) : Option V := (d.find? (fun p => p.1 == "_id")).map Prod.snd

/-- `ReplaceOne({"_id": d["_id"]}, d, upsert=True)` (source line 314)
against a collection modelled as a document list: replace the documents
matching the id, or append when none matches. -/
def upsertOne [DecidableEq V] (coll : List (MDoc V)) (d : MDoc V) : List (MDoc V) :=
  if coll.any (fun e => idOf e = idOf d) then
    coll.map (fun e => if idOf e = idOf d then d else e)
  else coll ++ [d]

/-- `coll.bulk_write([ReplaceOne(...) for d in docs])` (source lines
314-315), modelled as the in-order application of the replace-or-insert
operations. -/
def bulkUpsert [DecidableEq V] (coll : List (MDoc V)) (docs : List (MDoc V)) : List (MDoc V) :=
  docs.foldl upsertOne coll

/-- The branch condition of source line 313:
`upsert and "_id" in valid_docs[0]` (the batch must be non-empty to
reach it). -/
def commitUsesUpsert (upsert : Bool) (docs : List (MDoc V)) : Bool :=
  upsert && (match docs.head? with
    | some d => hasKey "_id" d
    | none => false)

/-- Committing one batch (source lines 312-317): nothing happens on an
empty batch; with upsert on and an `_id` in the first document the
batch is bulk-replaced; otherwise `insert_many` appends it. -/
def commitBatch [DecidableEq V] (upsert : Bool) (coll : List (MDoc V)) (docs : List (MDoc V)) :
    List (MDoc V) :=
  if docs.isEmpty then coll
  else if commitUsesUpsert upsert docs then bulkUpsert coll docs
  else coll ++ docs

/-- A full run's writes: the batches committed in order. -/
def runCommits [DecidableEq V] (upsert : Bool) (coll : List (MDoc V))
    (batches : List (List (MDoc V))) : List (MDoc V) :=
  batches.foldl (commitBatch upsert) coll

/-- A pair of row enumerations an engine without a deterministic ORDER
BY is free to use on two successive page queries over the same
two-row table: both are permutations of the table, but they disagree on
the order. -/
def demoOrders : Nat → List Nat := fun i => if i == 0 then [1, 2] else [2, 1]

section CommitLemmas

variable {V : Type} [DecidableEq V]

/-- Substitute one replace-write into an existing document (proof
helper for the commit layer). -/
def subOne (d e : MDoc V) : MDoc V := if idOf e = idOf d then d else e

/-- Apply one replace-write across a collection. -/
def replAll (coll : List (MDoc V)) (d : MDoc V) : List (MDoc V) := coll.map (subOne d)

/-- The last document in the list carrying the given id, if any. -/
def lastWith (i : Option V) : List (MDoc V) → Option (MDoc V)
  | [] => none
  | d :: ds =>
    match lastWith i ds with
    | some x => some x
    | none => if idOf d = i then some d else none

/-- What a document becomes after all writes in `docs` are applied. -/
def lastSub (docs : List (MDoc V)) (e : MDoc V) : MDoc V := (lastWith (idOf e) docs).getD e

theorem mem_upsertOne {coll : List (MDoc V)} {d e : MDoc V}
    (h : e ∈ upsertOne coll d) : e ∈ coll ∨ e = d := by
  unfold upsertOne at h
  split at h
  · rcases List.mem_map.mp h with ⟨x, hx, hxe⟩
    by_cases hid : idOf x = idOf d
    · right; rw [if_pos hid] at hxe; exact hxe.symm
    · left; rw [if_neg hid] at hxe; exact hxe ▸ hx
  · rcases List.mem_append.mp h with hc | hd
    · exact Or.inl hc
    · exact Or.inr (List.mem_singleton.mp hd)

theorem mem_bulkUpsert {docs : List (MDoc V)} :
    ∀ {coll : List (MDoc V)} {e : MDoc V}, e ∈ bulkUpsert coll docs → e ∈ coll ∨ e ∈ docs := by
  induction docs with
  | nil => intro coll e h; exact Or.inl h
  | cons d ds ih =>
    intro coll e h
    rcases @ih (upsertOne coll d) e h with hc | hd
    · rcases mem_upsertOne hc with hc2 | hc2
      · exact Or.inl hc2
      · exact Or.inr (hc2 ▸ List.mem_cons_self d ds)
    · exact Or.inr (List.mem_cons_of_mem d hd)

theorem exists_id_upsertOne_self (coll : List (MDoc V)) (d : MDoc V) :
    ∃ e ∈ upsertOne coll d, idOf e = idOf d := by
  unfold upsertOne
  split
  · rename_i hany
    rcases List.any_eq_true.mp hany with ⟨x, hx, hxd⟩
    refine ⟨d, ?_, rfl⟩
    exact List.mem_map.mpr ⟨x, hx, by rw [if_pos (of_decide_eq_true hxd)]⟩
  · exact ⟨d, List.mem_append.mpr (Or.inr (List.mem_singleton.mpr rfl)), rfl⟩

theorem exists_id_upsertOne_mono {coll : List (MDoc V)} {i : Option V}
    (h : ∃ e ∈ coll, idOf e = i) (d : MDoc V) :
    ∃ e ∈ upsertOne coll d, idOf e = i := by
  rcases h with ⟨e, he, hei⟩
  unfold upsertOne
  split
  · by_cases hid : idOf e = idOf d
    · exact ⟨d, List.mem_map.mpr ⟨e, he, by rw [if_pos hid]⟩, by rw [← hid, hei]⟩
    · exact ⟨e, List.mem_map.mpr ⟨e, he, by rw [if_neg hid]⟩, hei⟩
  · exact ⟨e, List.mem_append.mpr (Or.inl he), hei⟩

theorem exists_id_bulkUpsert_mono {docs : List (MDoc V)} :
    ∀ {coll : List (MDoc V)} {i : Option V}, (∃ e ∈ coll, idOf e = i) →
      ∃ e ∈ bulkUpsert coll docs, idOf e = i := by
  induction docs with
  | nil => intro coll i h; exact h
  | cons d ds ih => intro coll i h; exact ih (exists_id_upsertOne_mono h d)

theorem exists_id_bulkUpsert_self {docs : List (MDoc V)} :
    ∀ {coll : List (MDoc V)} {d : MDoc V}, d ∈ docs →
      ∃ e ∈ bulkUpsert coll docs, idOf e = idOf d := by
  induction docs with
  | nil => intro coll d h; exact absurd h (List.not_mem_nil d)
  | cons d0 ds ih =>
    intro coll d h
    rcases List.mem_cons.mp h with h0 | h0
    · subst h0
      show ∃ e ∈ bulkUpsert (upsertOne coll d) ds, idOf e = idOf d
      exact exists_id_bulkUpsert_mono (exists_id_upsertOne_self coll d)
    · exact ih h0

theorem upsertOne_eq_replAll {coll : List (MDoc V)} {d : MDoc V}
    (h : ∃ e ∈ coll, idOf e = idOf d) : upsertOne coll d = replAll coll d := by
  rcases h with ⟨e, he, hei⟩
  unfold upsertOne replAll subOne
  rw [if_pos (List.any_eq_true.mpr ⟨e, he, decide_eq_true hei⟩)]

theorem exists_id_replAll_mono {coll : List (MDoc V)} {i : Option V}
    (h : ∃ e ∈ coll, idOf e = i) (d : MDoc V) :
    ∃ e ∈ replAll coll d, idOf e = i := by
  rcases h with ⟨e, he, hei⟩
  by_cases hid : idOf e = idOf d
  · exact ⟨d, List.mem_map.mpr ⟨e, he, by simp [subOne, hid]⟩, by rw [← hid, hei]⟩
  · exact ⟨e, List.mem_map.mpr ⟨e, he, by simp [subOne, hid]⟩, hei⟩

theorem bulkUpsert_eq_foldRepl {docs : List (MDoc V)} :
    ∀ {coll : List (MDoc V)}, (∀ d ∈ docs, ∃ e ∈ coll, idOf e = idOf d) →
      bulkUpsert coll docs = docs.foldl replAll coll := by
  induction docs with
  | nil => intro coll _; rfl
  | cons d ds ih =>
    intro coll h
    have h0 : ∃ e ∈ coll, idOf e = idOf d := h d (List.mem_cons_self d ds)
    show bulkUpsert (upsertOne coll d) ds = ds.foldl replAll (replAll coll d)
    rw [upsertOne_eq_replAll h0]
    exact ih (fun d' hd' => exists_id_replAll_mono (h d' (List.mem_cons_of_mem d hd')) d)

theorem idOf_subOne (d e : MDoc V) : idOf (subOne d e) = idOf e := by
  unfold subOne
  by_cases hid : idOf e = idOf d
  · rw [if_pos hid, hid]
  · rw [if_neg hid]

theorem lastSub_subOne (d e : MDoc V) (ds : List (MDoc V)) :
    lastSub ds (subOne d e) = lastSub (d :: ds) e := by
  unfold lastSub
  rw [idOf_subOne]
  show (lastWith (idOf e) ds).getD (subOne d e) =
    (match lastWith (idOf e) ds with
      | some x => some x
      | none => if idOf d = idOf e then some d else none).getD e
  cases hl : lastWith (idOf e) ds with
  | some x => rfl
  | none =>
    unfold subOne
    by_cases hid : idOf e = idOf d
    · have hid2 : idOf d = idOf e := hid.symm
      rw [if_pos hid, if_pos hid2]
      try rfl
    · have hid2 : ¬ idOf d = idOf e := fun hc => hid hc.symm
      rw [if_neg hid, if_neg hid2]
      try rfl

theorem foldRepl_eq_map {docs : List (MDoc V)} :
    ∀ coll : List (MDoc V), docs.foldl replAll coll = coll.map (lastSub docs) := by
  induction docs with
  | nil =>
    intro coll
    simp only [List.foldl_nil]
    have h1 : coll.map (lastSub ([] : List (MDoc V))) = coll.map id :=
      List.map_congr_left (fun e _ => rfl)
    rw [h1, List.map_id]
  | cons d ds ih =>
    intro coll
    show ds.foldl replAll (replAll coll d) = coll.map (lastSub (d :: ds))
    rw [ih (replAll coll d)]
    unfold replAll
    rw [List.map_map]
    exact List.map_congr_left (fun e _ => lastSub_subOne d e ds)

theorem lastWith_isSome_of_mem {e : MDoc V} {ds : List (MDoc V)} (h : e ∈ ds) :
    (lastWith (idOf e) ds).isSome := by
  induction ds with
  | nil => exact absurd h (List.not_mem_nil e)
  | cons d0 ds0 ih =>
    show (match lastWith (idOf e) ds0 with
      | some x => some x
      | none => if idOf d0 = idOf e then some d0 else none).isSome
    rcases List.mem_cons.mp h with h0 | h0
    · cases hl : lastWith (idOf e) ds0 with
      | some x => rfl
      | none => subst h0; rw [if_pos rfl]; rfl
    · cases hl : lastWith (idOf e) ds0 with
      | some x => rfl
      | none => exact absurd (ih h0) (by rw [hl]; exact Bool.false_ne_true)

theorem eq_of_mem_upsertOne_id {coll : List (MDoc V)} {d e : MDoc V}
    (h : e ∈ upsertOne coll d) (hid : idOf e = idOf d) : e = d := by
  unfold upsertOne at h
  split at h
  · rcases List.mem_map.mp h with ⟨x, _, hxe⟩
    by_cases hxd : idOf x = idOf d
    · rw [if_pos hxd] at hxe; exact hxe.symm
    · rw [if_neg hxd] at hxe; exact absurd (hxe ▸ hid) hxd
  · rename_i hany
    rcases List.mem_append.mp h with hc | hd
    · exact absurd (List.any_eq_true.mpr ⟨e, hc, decide_eq_true hid⟩) hany
    · exact List.mem_singleton.mp hd

theorem lastSub_eq_self_of_mem_bulkUpsert {docs : List (MDoc V)} :
    ∀ {coll : List (MDoc V)} {e : MDoc V}, e ∈ bulkUpsert coll docs → lastSub docs e = e := by
  induction docs with
  | nil => intro coll e _; rfl
  | cons d ds ih =>
    intro coll e h
    have hds := @ih (upsertOne coll d) e h
    unfold lastSub at hds ⊢
    show (match lastWith (idOf e) ds with
      | some x => some x
      | none => if idOf d = idOf e then some d else none).getD e = e
    cases hl : lastWith (idOf e) ds with
    | some x => rw [hl] at hds; exact hds
    | none =>
      by_cases hid : idOf d = idOf e
      · rw [if_pos hid]
        have h2 : e ∈ bulkUpsert (upsertOne coll d) ds := h
        rcases mem_bulkUpsert h2 with hm | hm
        · exact (eq_of_mem_upsertOne_id hm hid.symm).symm
        · exact absurd (lastWith_isSome_of_mem hm) (by simp [hl])
      · rw [if_neg hid]; rfl

theorem map_eq_self_of_fix {f : α → α} {l : List α} (h : ∀ e ∈ l, f e = e) : l.map f = l :=
  (List.map_congr_left h).trans (List.map_id l)

/-- Replaying the same sequence of replace-or-insert writes is a
no-op: `bulk_write` with `ReplaceOne(..., upsert=True)` operations is
idempotent over any starting collection. -/
theorem bulkUpsert_idem (coll : List (MDoc V)) (docs : List (MDoc V)) :
    bulkUpsert (bulkUpsert coll docs) docs = bulkUpsert coll docs := by
  have hpres : ∀ d ∈ docs, ∃ e ∈ bulkUpsert coll docs, idOf e = idOf d :=
    fun d hd => exists_id_bulkUpsert_self hd
  rw [bulkUpsert_eq_foldRepl hpres, foldRepl_eq_map]
  exact map_eq_self_of_fix (fun e he => lastSub_eq_self_of_mem_bulkUpsert he)

theorem commitBatch_upsert {docs : List (MDoc V)} (coll : List (MDoc V))
    (h : ∀ d ∈ docs, hasKey "_id" d) : commitBatch true coll docs = bulkUpsert coll docs := by
  cases docs with
  | nil => rfl
  | cons d ds =>
    unfold commitBatch commitUsesUpsert
    rw [if_neg (by exact (Bool.not_eq_true _).mpr rfl)]
    simp only [List.head?_cons, Bool.true_and]
    rw [if_pos (h d (List.mem_cons_self d ds))]

theorem bulkUpsert_append (coll : List (MDoc V)) (a b : List (MDoc V)) :
    bulkUpsert (bulkUpsert coll a) b = bulkUpsert coll (a ++ b) :=
  (List.foldl_append upsertOne coll a b).symm

theorem runCommits_eq_bulkUpsert {batches : List (List (MDoc V))} :
    ∀ coll : List (MDoc V), (∀ b ∈ batches, ∀ d ∈ b, hasKey "_id" d) →
      runCommits true coll batches = bulkUpsert coll batches.flatten := by
  induction batches with
  | nil => intro coll _; rfl
  | cons b bs ih =>
    intro coll h
    show runCommits true (commitBatch true coll b) bs = bulkUpsert coll ((b :: bs).flatten)
    rw [commitBatch_upsert coll (h b (List.mem_cons_self b bs)),
      ih (bulkUpsert coll b) (fun b' hb' => h b' (List.mem_cons_of_mem b hb')),
      List.flatten_cons, bulkUpsert_append]

end CommitLemmas

section PagingLemmas

variable {α : Type}

theorem pageWhile_eq (tbl : List α) (bs off : Nat) :
    pageWhile tbl bs off =
      if (fetchPage tbl bs off).isEmpty then []
      else fetchPage tbl bs off :: pageWhile tbl bs (off + bs) := by
  rw [pageWhile]
  split <;> rfl

theorem pageWhile_empty (tbl : List α) (bs off : Nat)
    (h : fetchPage tbl bs off = []) : pageWhile tbl bs off = [] := by
  rw [pageWhile_eq, h]
  rfl

theorem pageWhile_flatten (tbl : List α) (bs : Nat) (hbs : 0 < bs) :
    ∀ off, (pageWhile tbl bs off).flatten = tbl.drop off := by
  have H : ∀ k off, tbl.length - off ≤ k → (pageWhile tbl bs off).flatten = tbl.drop off := by
    intro k
    induction k with
    | zero =>
      intro off hk
      rw [pageWhile_eq]
      have hd : tbl.drop off = [] := List.drop_eq_nil_of_le (by omega)
      simp [fetchPage, hd]
    | succ k ih =>
      intro off hk
      rw [pageWhile_eq]
      by_cases he : (fetchPage tbl bs off).isEmpty
      · rw [if_pos he]
        simp only [fetchPage, List.isEmpty_iff, List.take_eq_nil_iff] at he
        rcases he with h0 | h0
        · omega
        · simp [h0]
      · rw [if_neg he]
        have hdne : tbl.drop off ≠ [] := by
          intro hc; simp [fetchPage, hc] at he
        have hlt : off < tbl.length := by
          by_contra hc
          exact hdne (List.drop_eq_nil_of_le (by omega))
        rw [List.flatten_cons, ih (off + bs) (by omega)]
        show (tbl.drop off).take bs ++ tbl.drop (off + bs) = tbl.drop off
        rw [← List.drop_drop]
        exact List.take_append_drop bs (tbl.drop off)
  exact fun off => H tbl.length off (by omega)

theorem pageWhile_count (tbl : List α) (bs : Nat) (hbs : 0 < bs) :
    ∀ off, (pageWhile tbl bs off).length = (tbl.length - off + bs - 1) / bs := by
  have H : ∀ k off, tbl.length - off ≤ k →
      (pageWhile tbl bs off).length = (tbl.length - off + bs - 1) / bs := by
    intro k
    induction k with
    | zero =>
      intro off hk
      rw [pageWhile_eq]
      have hd : tbl.drop off = [] := List.drop_eq_nil_of_le (by omega)
      have hz : tbl.length - off = 0 := by omega
      rw [hz]
      simp only [fetchPage, hd, List.take_nil, List.isEmpty_nil, if_true, List.length_nil]
      exact (Nat.div_eq_of_lt (by omega)).symm
    | succ k ih =>
      intro off hk
      rw [pageWhile_eq]
      by_cases he : (fetchPage tbl bs off).isEmpty
      · rw [if_pos he]
        simp only [fetchPage, List.isEmpty_iff, List.take_eq_nil_iff] at he
        rcases he with h0 | h0
        · omega
        · have hlen : tbl.length - off = 0 := by
            have := List.drop_eq_nil_iff.mp h0
            omega
          rw [hlen]
          simp only [List.length_nil]
          exact (Nat.div_eq_of_lt (by omega)).symm
      · rw [if_neg he]
        have hdne : tbl.drop off ≠ [] := by
          intro hc; simp [fetchPage, hc] at he
        have hlt : off < tbl.length := by
          by_contra hc
          exact hdne (List.drop_eq_nil_of_le (by omega))
        rw [List.length_cons, ih (off + bs) (by omega)]
        set m := tbl.length - off with hm
        have hm1 : 1 ≤ m := by omega
        by_cases hmb : bs ≤ m
        · have hsub : tbl.length - (off + bs) = m - bs := by omega
          rw [hsub]
          have h1 : m - bs + bs - 1 = m - 1 := by omega
          have h2 : m + bs - 1 = (m - 1) + bs := by omega
          rw [h1, h2, Nat.add_div_right _ hbs]
        · have hsub : tbl.length - (off + bs) = 0 := by omega
          rw [hsub]
          have h1 : (0 + bs - 1) / bs = 0 := Nat.div_eq_of_lt (by omega)
          rw [h1]
          have h2 : (m + bs - 1) / bs = 1 := by
            refine Nat.div_eq_of_lt_le (by omega : 1 * bs ≤ m + bs - 1) ?_
            omega
          omega
  exact fun off => H tbl.length off (by omega)

end PagingLemmas

section DocLemmas

theorem any_congr_fn {l : List α} {p q : α → Bool} (h : ∀ x ∈ l, p x = q x) :
    l.any p = l.any q := by
  induction l with
  | nil => rfl
  | cons x xs ih =>
    rw [List.any_cons, List.any_cons, h x (List.mem_cons_self x xs),
      ih (fun y hy => h y (List.mem_cons_of_mem x hy))]

theorem any_map_fn {l : List α} {f : α → β} {p : β → Bool} :
    (l.map f).any p = l.any (fun x => p (f x)) := by
  induction l with
  | nil => rfl
  | cons x xs ih => rw [List.map_cons, List.any_cons, List.any_cons, ih]

theorem hasKey_dictInsert (t k : String) (v : α) (d : List (String × α)) :
    hasKey t (dictInsert d k v) = (hasKey t d || k == t) := by
  unfold dictInsert hasKey
  split
  · rename_i hany
    rw [any_map_fn]
    by_cases hkt : k = t
    · subst hkt
      rw [beq_self_eq_true, Bool.or_true]
      rcases List.any_eq_true.mp hany with ⟨x, hx, hxk⟩
      refine List.any_eq_true.mpr ⟨x, hx, ?_⟩
      show ((if x.1 == k then (k, v) else x).1 == k) = true
      rw [if_pos hxk]
      exact beq_self_eq_true k
    · rw [beq_eq_false_iff_ne.mpr hkt, Bool.or_false]
      refine any_congr_fn (fun x _ => ?_)
      show ((if x.1 == k then (k, v) else x).1 == t) = (x.1 == t)
      by_cases hxk : (x.1 == k) = true
      · rw [if_pos hxk]
        show (k == t) = (x.1 == t)
        rw [eq_of_beq hxk]
      · rw [if_neg (fun hc => hxk hc)]
  · rw [List.any_append, List.any_cons, List.any_nil, Bool.or_false]

theorem dictInsert_of_not_hasKey (k : String) (v : α) (d : List (String × α))
    (h : hasKey k d = false) : dictInsert d k v = d ++ [(k, v)] := by
  unfold dictInsert
  unfold hasKey at h
  rw [h]
  simp

theorem hasKey_buildDocAux_false (rm tm : List (String × String)) (fresh t : String) :
    ∀ (row : List (String × PyVal)) (acc : Doc) (d : Doc),
      buildDocAux rm tm fresh row acc = .ok d → hasKey t acc = false →
      (∀ p ∈ row, ¬ renameOf rm p.1 = t) → hasKey t d = false := by
  intro row
  induction row with
  | nil =>
    intro acc d hb hacc _
    injection hb with hb2
    exact hb2 ▸ hacc
  | cons p rest ih =>
    intro acc d hb hacc hrow
    unfold buildDocAux at hb
    rcases hc : convert_value fresh p.2 (typeOf tm p.1) with e | bv
    · rw [hc] at hb
      exact Except.noConfusion hb
    · rw [hc] at hb
      replace hb : buildDocAux rm tm fresh rest (dictInsert acc (renameOf rm p.1) bv) =
        Except.ok d := hb
      refine ih _ d hb ?_ (fun q hq => hrow q (List.mem_cons_of_mem p hq))
      rw [hasKey_dictInsert, hacc, Bool.false_or]
      exact beq_eq_false_iff_ne.mpr (hrow p (List.mem_cons_self p rest))

theorem buildDocAux_keys (rm tm : List (String × String)) (fresh : String) :
    ∀ (row : List (String × PyVal)) (acc : Doc) (d : Doc),
      buildDocAux rm tm fresh row acc = .ok d →
      (∀ p ∈ row, hasKey (renameOf rm p.1) acc = false) →
      (row.map (fun p => renameOf rm p.1)).Nodup →
      d.map Prod.fst = acc.map Prod.fst ++ row.map (fun p => renameOf rm p.1) := by
  intro row
  induction row with
  | nil =>
    intro acc d hb _ _
    injection hb with hb2
    rw [← hb2]
    simp
  | cons p rest ih =>
    intro acc d hb hdisj hnodup
    unfold buildDocAux at hb
    rcases hc : convert_value fresh p.2 (typeOf tm p.1) with e | bv
    · rw [hc] at hb
      exact Except.noConfusion hb
    · rw [hc] at hb
      replace hb : buildDocAux rm tm fresh rest (dictInsert acc (renameOf rm p.1) bv) =
        Except.ok d := hb
      have hknew : hasKey (renameOf rm p.1) acc = false :=
        hdisj p (List.mem_cons_self p rest)
      have hnodup2 := hnodup
      rw [List.map_cons, List.nodup_cons] at hnodup2
      have hres := ih (dictInsert acc (renameOf rm p.1) bv) d hb ?_ hnodup2.2
      · rw [hres, dictInsert_of_not_hasKey _ _ _ hknew, List.map_append, List.map_cons]
        simp
      · intro q hq
        rw [hasKey_dictInsert, hdisj q (List.mem_cons_of_mem p hq), Bool.false_or]
        refine beq_eq_false_iff_ne.mpr (fun hc2 => hnodup2.1 ?_)
        rw [hc2]
        exact List.mem_map.mpr ⟨q, hq, rfl⟩

theorem convertBody_fresh_indep (f1 f2 : String) (v : PyVal) (t : String)
    (h : ¬ t = "objectid" ∨ isHex24 (pyStr v) = true) :
    convertBody f1 v t = convertBody f2 v t := by
  unfold convertBody
  split_ifs with h1 h2 h3 h4 h5 h6 h7 h8 h9
  any_goals rfl
  rcases h with hno | hhex
  · exact absurd (eq_of_beq h8) hno
  · exact absurd hhex h9

end DocLemmas

/-- Claim C1 (code bug evidence).  The claim says `convert(v, t)` is
total for every run-time value `v`, never raising.  The code's null
guard `if pd.isna(v) or v is None` sits before the `try` block, and for
a list of two or more elements `pd.isna` returns a multi-element numpy
boolean array whose truth value raises `ValueError`: on the failing
input `[1, 2]`, `convert_value` raises for every target type instead of
returning a value or null. -/
theorem C1_convert_raises_on_multielement_list :
    ∀ fresh target_type : String,
      convert_value fresh (PyVal.vList [PyVal.vInt 1, PyVal.vInt 2]) target_type =
        Except.error ambiguousTruthMsg :=
  fun _ _ => rfl

/-- Claim C2 (counterexample).  A batch whose second document holds an
integer beyond 8 bytes fails `bson.encode`; the claim asserts the
failure is appended to the run's `failures` record with row index and
reason, but the validation loop's handler is `pass`: the surviving
batch is exactly the first document and the recorded failure list is
empty, not a one-entry list. -/
theorem C2_cx_encoding_failure_recorded_nowhere :
    bsonEncodable [("n", some (BVal.bInt (2 ^ 70)))] = false ∧
    validateDocs [[("a", some (BVal.bStr "ok"))], [("n", some (BVal.bInt (2 ^ 70)))]] =
      ([[("a", some (BVal.bStr "ok"))]], []) :=
  ⟨rfl, rfl⟩

/-- Claim C2 (amended).  Documents that fail wire-format encoding are
excluded from the commit while the rest of the batch survives in order,
and a per-document encoding failure never aborts the batch — but the
failure is silently discarded: the run records no failure entry at
all. -/
theorem C2_amended_validation_filters_silently (docs : List Doc) :
    (validateDocs docs).1 = docs.filter bsonEncodable ∧ (validateDocs docs).2 = [] := by
  induction docs with
  | nil => exact ⟨rfl, rfl⟩
  | cons d ds ih =>
    unfold validateDocs
    rw [List.filter_cons]
    by_cases hd : bsonEncodable d = true
    · rw [if_pos hd, if_pos hd]
      exact ⟨by rw [ih.1], ih.2⟩
    · rw [if_neg hd, if_neg hd]
      exact ⟨ih.1, ih.2⟩

/-- Claim C3 (counterexample).  Two source columns `a` and `b` both
renamed to target name `x`: no `DuplicateTargetNameError` (or any
error) is raised — the document build succeeds — and the resulting
document has one entry instead of two: the claim's error guarantee and
its length guarantee both fail. -/
theorem C3_cx_duplicate_target_names_no_error :
    buildRowDoc [("a", "x"), ("b", "x")] [] "f" [("a", PyVal.vInt 1), ("b", PyVal.vInt 2)] =
      .ok [("x", some (BVal.bStr "2"))] ∧
    ([("x", (some (BVal.bStr "2") : Option BVal))] : Doc).length ≠
      ([("a", PyVal.vInt 1), ("b", PyVal.vInt 2)] : List (String × PyVal)).length :=
  ⟨rfl, by decide⟩

/-- Claim C3 (amended).  The code performs no duplicate-target-name
check: colliding target names silently collapse onto one key (the last
colliding column's converted value wins).  When the resolved target
names are pairwise distinct, the built document's keys are exactly
those target names in column order — pairwise distinct, with length
equal to the input column count. -/
theorem C3_amended_distinct_names_build_fully (rm tm : List (String × String))
    (fresh : String) (row : List (String × PyVal)) (d : Doc)
    (hbuild : buildRowDoc rm tm fresh row = .ok d)
    (hnodup : (row.map (fun p => renameOf rm p.1)).Nodup) :
    d.map Prod.fst = row.map (fun p => renameOf rm p.1) ∧
    d.length = row.length ∧ (d.map Prod.fst).Nodup := by
  have hkeys := buildDocAux_keys rm tm fresh row [] d hbuild (fun p _ => rfl) hnodup
  rw [List.map_nil, List.nil_append] at hkeys
  refine ⟨hkeys, ?_, hkeys ▸ hnodup⟩
  have h1 := congrArg List.length hkeys
  rw [List.length_map, List.length_map] at h1
  exact h1

/-- Witness for the amended claim C3 at a concrete mapping: column `a`
renamed to `x`, column `b` kept; the built document's keys are
`[x, b]`, two entries for two columns, pairwise distinct. -/
theorem C3_amended_witness :
    buildRowDoc [("a", "x")] [] "f" [("a", PyVal.vInt 1), ("b", PyVal.vStr "y")] =
      .ok [("x", some (BVal.bStr "1")), ("b", some (BVal.bStr "y"))] ∧
    (([("a", PyVal.vInt 1), ("b", PyVal.vStr "y")] : List (String × PyVal)).map
      (fun p => renameOf [("a", "x")] p.1)).Nodup ∧
    (([("x", some (BVal.bStr "1")), ("b", some (BVal.bStr "y"))] : Doc).map Prod.fst =
      ([("a", PyVal.vInt 1), ("b", PyVal.vStr "y")] : List (String × PyVal)).map
        (fun p => renameOf [("a", "x")] p.1) ∧
     ([("x", some (BVal.bStr "1")), ("b", some (BVal.bStr "y"))] : Doc).length =
      ([("a", PyVal.vInt 1), ("b", PyVal.vStr "y")] : List (String × PyVal)).length ∧
     (([("x", some (BVal.bStr "1")), ("b", some (BVal.bStr "y"))] : Doc).map Prod.fst).Nodup) :=
  ⟨rfl, by decide,
    C3_amended_distinct_names_build_fully [("a", "x")] [] "f"
      [("a", PyVal.vInt 1), ("b", PyVal.vStr "y")]
      [("x", some (BVal.bStr "1")), ("b", some (BVal.bStr "y"))] rfl (by decide)⟩

/-- Claim C4 (counterexample).  Two calls of `convert_value` on the
same input `("zz", objectid)` with different freshly generated
identifiers return different results: the `except: return ObjectId()`
fallback makes the conversion non-deterministic. -/
theorem C4_cx_objectid_fallback_nondeterministic :
    ¬ convert_value "f1" (PyVal.vStr "zz") "objectid" =
      convert_value "f2" (PyVal.vStr "zz") "objectid" := by
  intro hc
  have h1 : convert_value "f1" (PyVal.vStr "zz") "objectid" =
    .ok (some (BVal.bObjectId "f1")) := rfl
  have h2 : convert_value "f2" (PyVal.vStr "zz") "objectid" =
    .ok (some (BVal.bObjectId "f2")) := rfl
  rw [h1, h2] at hc
  injection hc with h3
  injection h3 with h4
  injection h4 with h5
  exact absurd h5 (by decide)

/-- Claim C4 (amended).  `convert_value` is deterministic — independent
of the freshly generated identifier — for every input except the
`objectid` fallback path: whenever the target type is not `objectid`,
or the ObjectId construction from `str(v)` succeeds, two calls on equal
inputs return equal results. -/
theorem C4_amended_deterministic_off_fallback (f1 f2 : String) (v : PyVal) (t : String)
    (h : ¬ t = "objectid" ∨ isHex24 (pyStr v) = true) :
    convert_value f1 v t = convert_value f2 v t := by
  unfold convert_value
  cases hna : pyIsnaCheck v with
  | error e => rfl
  | ok b =>
    cases b with
    | true => rfl
    | false => rw [convertBody_fresh_indep f1 f2 v t h]

/-- Witness for the amended claim C4: an `int32` conversion of the
string `7` is identical under two different fresh identifiers. -/
theorem C4_amended_witness :
    (¬ ("int32" : String) = "objectid" ∨ isHex24 (pyStr (PyVal.vStr "7")) = true) ∧
    convert_value "a" (PyVal.vStr "7") "int32" = convert_value "b" (PyVal.vStr "7") "int32" :=
  ⟨Or.inl (by decide),
    C4_amended_deterministic_off_fallback "a" "b" (PyVal.vStr "7") "int32" (Or.inl (by decide))⟩

/-- Claim C5 (counterexample).  The MySQL page query carries no ORDER
BY clause at all, so the engine may legally enumerate the table in a
different order on each query.  Concretely, over the two-row table
`[1, 2]` with batch size 1, per-query orders `[1, 2]` then `[2, 1]`
(each a permutation of the table) make the loop fetch `[1]` twice and
stop on the third, empty fetch: the concatenation `[1, 1]` is not the
full-table read `[1, 2]`, and row `2` is never fetched — paging is
neither exhaustive nor non-overlapping. -/
theorem C5_cx_unordered_paging_skips_and_duplicates :
    hasSub (mysql_page_query "employees").data ("ORDER BY".data) = false ∧
    (demoOrders 0).Perm [1, 2] ∧ (demoOrders 1).Perm [1, 2] ∧
    pageWhileUnordered demoOrders 1 10 0 0 = [[1], [1]] ∧
    ¬ (pageWhileUnordered demoOrders 1 10 0 0).flatten = [1, 2] ∧
    ¬ 2 ∈ (pageWhileUnordered demoOrders 1 10 0 0).flatten := by
  decide

/-- Claim C5 (amended).  The page queries impose no deterministic order
(MySQL: no ORDER BY; MS SQL: `ORDER BY (SELECT NULL)`), so the claim's
guarantee holds only under the additional assumption that the engine
enumerates the table in one fixed stable order for every query.  Under
that assumption, for a table of N rows and positive batch size B the
loop visits ceil(N/B) non-empty pages whose concatenation is the
full-table read in that order, and an empty fetch ends the loop. -/
theorem C5_amended_stable_order_paging {α : Type} (tbl : List α) (bs : Nat) (hbs : 0 < bs) :
    (pageWhile tbl bs 0).flatten = tbl ∧
    (pageWhile tbl bs 0).length = (tbl.length + bs - 1) / bs ∧
    ∀ off, fetchPage tbl bs off = [] → pageWhile tbl bs off = [] := by
  refine ⟨?_, ?_, fun off h => pageWhile_empty tbl bs off h⟩
  · rw [pageWhile_flatten tbl bs hbs 0, List.drop_zero]
  · rw [pageWhile_count tbl bs hbs 0, Nat.sub_zero]

/-- Witness for the amended claim C5: three rows, batch size 2 — two
pages whose concatenation is the table. -/
theorem C5_amended_witness :
    0 < 2 ∧ (pageWhile [10, 20, 30] 2 0).flatten = [10, 20, 30] ∧
    (pageWhile [10, 20, 30] 2 0).length = (([10, 20, 30] : List Nat).length + 2 - 1) / 2 :=
  ⟨by decide, (C5_amended_stable_order_paging [10, 20, 30] 2 (by decide)).1,
    (C5_amended_stable_order_paging [10, 20, 30] 2 (by decide)).2.1⟩

/-- Claim C6.  With `upsert=true` and every converted document carrying
an `_id` (the stable id_field), re-running the whole migration over an
unchanged source — i.e. committing the same batches again on top of the
collection the first run produced — leaves the collection exactly as
after the single run: replace-or-insert keyed by `_id` makes the run
idempotent, with no duplicates introduced. -/
theorem C6_upsert_rerun_idempotent {V : Type} [DecidableEq V]
    (coll : List (MDoc V)) (batches : List (List (MDoc V)))
    (hids : ∀ b ∈ batches, ∀ d ∈ b, hasKey "_id" d = true) :
    runCommits true (runCommits true coll batches) batches = runCommits true coll batches := by
  rw [runCommits_eq_bulkUpsert coll hids, runCommits_eq_bulkUpsert _ hids, bulkUpsert_idem]

/-- Witness for claim C6 at two concrete one-document batches sharing
an `_id`. -/
theorem C6_witness :
    (∀ b ∈ [[[("_id", 1), ("x", 2)]], [[("_id", 1), ("x", 3)]]],
      ∀ d ∈ b, hasKey "_id" d = true) ∧
    runCommits true
        (runCommits true ([] : List (MDoc Nat)) [[[("_id", 1), ("x", 2)]], [[("_id", 1), ("x", 3)]]])
        [[[("_id", 1), ("x", 2)]], [[("_id", 1), ("x", 3)]]] =
      runCommits true ([] : List (MDoc Nat)) [[[("_id", 1), ("x", 2)]], [[("_id", 1), ("x", 3)]]] :=
  ⟨by decide,
    C6_upsert_rerun_idempotent ([] : List (MDoc Nat))
      [[[("_id", 1), ("x", 2)]], [[("_id", 1), ("x", 3)]]] (by decide)⟩

/-- Claim C7.  For every non-null input that passes the null guard,
`convert(v, objectid)` attempts to build the identifier from `str(v)`
(succeeding exactly when it is a 24-character hex string), and on
construction failure returns a freshly generated identifier — never
null and never an error. -/
theorem C7_objectid_construct_or_fresh (fresh : String) (v : PyVal)
    (h : pyIsnaCheck v = .ok false) :
    (isHex24 (pyStr v) = true →
      convert_value fresh v "objectid" = .ok (some (BVal.bObjectId (pyStr v)))) ∧
    (isHex24 (pyStr v) = false →
      convert_value fresh v "objectid" = .ok (some (BVal.bObjectId fresh))) := by
  have hbody : convert_value fresh v "objectid" = .ok (convertBody fresh v "objectid") := by
    unfold convert_value
    rw [h]
  have hob : convertBody fresh v "objectid" =
      if isHex24 (pyStr v) then some (.bObjectId (pyStr v)) else some (.bObjectId fresh) := rfl
  constructor
  · intro hhex
    rw [hbody, hob, if_pos hhex]
  · intro hhex
    rw [hbody, hob, if_neg (fun hc => by rw [hhex] at hc; exact Bool.false_ne_true hc)]

/-- Witness for claim C7: the non-hex string `nope` falls back to the
freshly generated identifier. -/
theorem C7_witness :
    pyIsnaCheck (PyVal.vStr "nope") = .ok false ∧
    convert_value "f" (PyVal.vStr "nope") "objectid" = .ok (some (BVal.bObjectId "f")) :=
  ⟨rfl, (C7_objectid_construct_or_fresh "f" (PyVal.vStr "nope") rfl).2 rfl⟩

/-- Claim C8 (counterexample).  The fixed table maps native type
`decimal` to target type `decimal`, not to `float` as the claim
states. -/
theorem C8_cx_decimal_maps_to_decimal : ¬ default_type_for "decimal" = "float" := by
  decide

/-- Claim C8 (amended).  `default_type_for` maps `float` and `real` to
target type `float` but `decimal` to target type `decimal`; every
native type missing from the fixed table defaults to `string`. -/
theorem C8_amended_default_type_table :
    default_type_for "decimal" = "decimal" ∧ default_type_for "float" = "float" ∧
    default_type_for "real" = "float" ∧
    ∀ s : String, default_type_map.lookup (lowerStr s) = none →
      default_type_for s = "string" := by
  refine ⟨rfl, rfl, rfl, fun s h => ?_⟩
  unfold default_type_for
  rw [h]
  rfl

/-- Witness for the amended claim C8 at the unmatched native type
`geometry`. -/
theorem C8_amended_witness :
    default_type_map.lookup (lowerStr "geometry") = none ∧
    default_type_for "geometry" = "string" :=
  ⟨rfl, C8_amended_default_type_table.2.2.2 "geometry" rfl⟩

/-- Claim C9.  Converting a null input returns null for every target
type tag (indeed for every string in the target-type position): the
null guard fires before any branch is examined. -/
theorem C9_convert_null_gives_null :
    ∀ fresh target_type : String, convert_value fresh PyVal.vNone target_type = .ok none :=
  fun _ _ => rfl

/-- Claim C10.  When the operator picks an `id_field` but the override
renames that column (and no other column's target name collides with
`id_field` or `_id`), the membership test `id_field in doc` runs
against the renamed keys and fails for every row: the identifier
overwrite is skipped, the document carries no `_id`, and the
`upsert and "_id" in valid_docs[0]` branch condition is false, so the
commit degrades to a plain insert. -/
theorem C10_renamed_id_field_skips_identifier (rm tm : List (String × String))
    (fresh id_field : String) (row : List (String × PyVal)) (d : Doc)
    (hauto : ¬ id_field = "(auto)")
    (hren : ∀ p ∈ row, ¬ renameOf rm p.1 = id_field)
    (hid : ∀ p ∈ row, ¬ renameOf rm p.1 = "_id")
    (hbuild : buildRowDoc rm tm fresh row = .ok d) :
    addIdField id_field d = d ∧ hasKey "_id" d = false ∧
    ∀ more : List Doc, commitUsesUpsert true (d :: more) = false := by
  have hkid : hasKey id_field d = false :=
    hasKey_buildDocAux_false rm tm fresh id_field row [] d hbuild rfl hren
  have hk_id : hasKey "_id" d = false :=
    hasKey_buildDocAux_false rm tm fresh "_id" row [] d hbuild rfl hid
  refine ⟨?_, hk_id, fun more => ?_⟩
  · unfold addIdField
    rw [hkid]
    simp
  · unfold commitUsesUpsert
    rw [List.head?_cons]
    show (true && hasKey "_id" d) = false
    rw [Bool.true_and]
    exact hk_id

/-- Witness for claim C10: `id` is the selected id_field but is renamed
to `key`; the built document is committed without `_id` and the commit
condition selects plain insert. -/
theorem C10_witness :
    buildRowDoc [("id", "key")] [] "f" [("id", PyVal.vInt 5), ("name", PyVal.vStr "bob")] =
      .ok [("key", some (BVal.bStr "5")), ("name", some (BVal.bStr "bob"))] ∧
    (addIdField "id" [("key", some (BVal.bStr "5")), ("name", some (BVal.bStr "bob"))] =
      [("key", some (BVal.bStr "5")), ("name", some (BVal.bStr "bob"))] ∧
     hasKey "_id" [("key", some (BVal.bStr "5")), ("name", some (BVal.bStr "bob"))] = false ∧
     ∀ more : List Doc,
       commitUsesUpsert true
         ([("key", some (BVal.bStr "5")), ("name", some (BVal.bStr "bob"))] :: more) = false) :=
  ⟨rfl,
    C10_renamed_id_field_skips_identifier [("id", "key")] [] "f" "id"
      [("id", PyVal.vInt 5), ("name", PyVal.vStr "bob")]
      [("key", some (BVal.bStr "5")), ("name", some (BVal.bStr "bob"))]
      (by decide) (by decide) (by decide) rfl⟩

end DBMigration
